import Mathlib

/-!
Verification of the pgsqm query-fragment composer.

Shallow embedding of `src/pgsqm.py`.

Modelling conventions:
* A Python `Table` object is identified by its `id()` value, modelled as a
  `Nat` (`NodeId`).  A `Graph` maps every id to the node's content (its
  template and its insertion-ordered dependency dict).  This mirrors the
  identity-based `__eq__`/`__hash__` of `Table` (pgsqm.py lines 16-20):
  the sorter and the CTE assembler key everything by id.
* A psycopg2 `SQL` template is a pre-parsed list of literal chunks and named
  placeholders.  `SQL.format(**m)` substitutes placeholders sequentially and
  raises `KeyError` at the first placeholder without a value.
* Python `f(**d1, **d2)` raises `TypeError` (duplicate keyword) when the two
  dicts share a key; the duplicate is detected after `d1` (and its values)
  have been evaluated.  Errors are modelled with `Except Err`.
* Python dicts are insertion-ordered association lists with unique keys.
* The `set` built inside `sort_dependencies` iterates in an order that is a
  deterministic function of the member objects' `id()` hashes, *not* of the
  dependency dict's insertion order.  It is modelled by an explicit parameter
  `pySet : List Nat → List Nat` mapping the insertion sequence of the set's
  members to the iteration order; `PySetOK` states the set laws (no
  duplicates, same membership).  Any such function is a realizable CPython
  behaviour for a suitable layout of object addresses.
* Recursion depth (Python's `RecursionError`) and loop progress are modelled
  with fuel; exhausted fuel gives the distinguished error `.recursionLimit`.
-/

namespace Pgsqm

/-- One pre-parsed item of a psycopg2 `SQL` template: a literal chunk of text
or a named `{placeholder}`. -/
inductive TItem where
  | lit (s : String)
  | ph (name : String)
deriving DecidableEq, Repr

/-- A psycopg2 `SQL` template, pre-parsed. -/
abbrev Template := List TItem

/-- A composed psycopg2 value: `SQL` literal text, an escaped `Identifier`,
or a `Composed` sequence. -/
inductive Fragment where
  | lit (s : String)
  | ident (s : String)
  | comp (fs : List Fragment)

mutual

/-- Structural equality test on fragments (used only to count occurrences of
a rendering inside a larger rendering). -/
def fragBeq : Fragment → Fragment → Bool
  | .lit a, .lit b => a == b
  | .ident a, .ident b => a == b
  | .comp as, .comp bs => fragListBeq as bs
  | _, _ => false

/-- Structural equality test on fragment lists. -/
def fragListBeq : List Fragment → List Fragment → Bool
  | [], [] => true
  | a :: as, b :: bs => fragBeq a b && fragListBeq as bs
  | _, _ => false

end

/-- Python exceptions raised by the code under verification. -/
inductive Err where
  /-- `KeyError` from `SQL.format`: a template placeholder without a value. -/
  | keyError (name : String)
  /-- `KeyError` from `deps[t]` in `sql_with_named_deps`: dependency node
  absent from the alias mapping. -/
  | missingAlias (t : Nat)
  /-- `TypeError: got multiple values for keyword argument` from
  `format(**deps, **kwargs)` with a shared key. -/
  | duplicateKeyword (name : String)
  /-- `AssertionError("Circular Table dependency")` from `sort_dependencies`. -/
  | assertCycle
  /-- Python `RecursionError` / exhausted fuel. -/
  | recursionLimit
deriving DecidableEq, Repr

/-- Python `KeyError` is a subclass of `LookupError`; both `.keyError` and
`.missingAlias` are raised as `KeyError` in the source. -/
def isLookupError : Err → Bool
  | .keyError _ => true
  | .missingAlias _ => true
  | _ => false

/-- The content of one `Table` object (pgsqm.py lines 5-14): its template and
its insertion-ordered dependency dict mapping placeholder names to the ids of
the depended-on `Table` objects. -/
structure Node where
  sql : Template
  source_tables : List (String × Nat)
deriving DecidableEq, Repr

/-- The Python heap restricted to `Table` objects: content of the object at
each id. -/
abbrev Graph := Nat → Node

/-- Association-list lookup, first match wins (Python dict lookup; keys are
unique in every dict we build). -/
def alookup {α β : Type} [DecidableEq α] : List (α × β) → α → Option β
  | [], _ => none
  | (k, v) :: rest, a => if k = a then some v else alookup rest a

/-- A `Table` value as Python sees it: the object's `id()` plus its content.
Two `PyTable`s model the same allocated instance exactly when their `tid`s
coincide (CPython ids of live objects are unique). -/
structure PyTable where
  tid : Nat
  node : Node

/-- `Table.__eq__` (pgsqm.py line 19-20): `id(self) == id(other)`. -/
def tableEq (a b : PyTable) : Bool := a.tid == b.tid

/-- CPython `hash` of a nonnegative `int`: reduction modulo `2^61 - 1`. -/
def pyIntHash (n : Nat) : Nat := n % (2 ^ 61 - 1)

/-- `Table.__hash__` (pgsqm.py line 16-17): `hash(id(self))`. -/
def tableHash (a : PyTable) : Nat := pyIntHash a.tid

/-- `SQL.format` body: substitute the mapping into the template items
sequentially, `KeyError` at the first placeholder without a value. -/
def formatItems (m : List (String × Fragment)) : Template → Except Err (List Fragment)
  | [] => .ok []
  | .lit s :: rest =>
    match formatItems m rest with
    | .error e => .error e
    | .ok fs => .ok (Fragment.lit s :: fs)
  | .ph n :: rest =>
    match alookup m n with
    | none => .error (.keyError n)
    | some f =>
      match formatItems m rest with
      | .error e => .error e
      | .ok fs => .ok (f :: fs)

/-- `SQL.format(**m)`: a `Composed` of the substituted items. -/
def formatT (tpl : Template) (m : List (String × Fragment)) : Except Err Fragment :=
  match formatItems m tpl with
  | .error e => .error e
  | .ok fs => .ok (.comp fs)

/-- The duplicate-keyword check performed by Python at
`format(**deps, **kwargs)`: the first key of `kwargs` that is also a
dependency name, if any. -/
def firstDup (depNames : List String) (kw : List (String × Fragment)) : Option String :=
  (kw.map Prod.fst).find? (fun k => decide (k ∈ depNames))

/-- The dict comprehension of `sql_with_subqueries` (pgsqm.py lines 26-30):
render each dependency with the supplied renderer and wrap it as
`( <rendered> ) AS <name>`, in dict order, propagating the first error. -/
def buildWith (f : Nat → Except Err Fragment) :
    List (String × Nat) → Except Err (List (String × Fragment))
  | [] => .ok []
  | (s, d) :: rest =>
    match f d with
    | .error e => .error e
    | .ok r =>
      match buildWith f rest with
      | .error e => .error e
      | .ok tail => .ok ((s, Fragment.comp [.lit "(", r, .lit ") AS ", .ident s]) :: tail)

/-- `sql_with_subqueries` (pgsqm.py lines 23-32).  The dict comprehension
(with its recursive renders) is evaluated first, then the duplicate-keyword
check of `format(**deps, **kwargs)`, then the substitution itself. -/
def sqlWithSubqueries (g : Graph) (kw : List (String × Fragment)) :
    Nat → Nat → Except Err Fragment
  | 0, _ => .error .recursionLimit
  | fuel + 1, t =>
    match buildWith (fun d => sqlWithSubqueries g kw fuel d) (g t).source_tables with
    | .error e => .error e
    | .ok m =>
      match firstDup ((g t).source_tables.map Prod.fst) kw with
      | some k => .error (.duplicateKeyword k)
      | none => formatT (g t).sql (m ++ kw)

/-- The dict comprehension of `sql_with_named_deps` (pgsqm.py line 38):
`deps[t]` lookup (raising `KeyError` on a missing dependency) wrapped as
`<alias> AS <name>`, in dict order. -/
def buildNamed (deps : List (Nat × String)) :
    List (String × Nat) → Except Err (List (String × Fragment))
  | [] => .ok []
  | (s, d) :: rest =>
    match alookup deps d with
    | none => .error (.missingAlias d)
    | some a =>
      match buildNamed deps rest with
      | .error e => .error e
      | .ok tail => .ok ((s, Fragment.comp [.ident a, .lit " AS ", .ident s]) :: tail)

/-- `sql_with_named_deps` (pgsqm.py lines 34-41): no recursion, direct
dependencies only, then the duplicate-keyword check, then substitution. -/
def sqlWithNamedDeps (g : Graph) (t : Nat) (deps : List (Nat × String))
    (kw : List (String × Fragment)) : Except Err Fragment :=
  match buildNamed deps (g t).source_tables with
  | .error e => .error e
  | .ok m =>
    match firstDup ((g t).source_tables.map Prod.fst) kw with
    | some k => .error (.duplicateKeyword k)
    | none => formatT (g t).sql (m ++ kw)

/-- Python dict insertion: an existing key keeps its position and gets the
new value, a new key is appended. -/
def dictInsert : List (Nat × String) → Nat → String → List (Nat × String)
  | [], k, v => [(k, v)]
  | (k', v') :: rest, k, v =>
    if k' = k then (k', v) :: rest else (k', v') :: dictInsert rest k v

/-- The dict comprehension
`{t: Identifier("_cte%d" % i) for i, t in enumerate(cte_deps)}`
(pgsqm.py line 45). -/
def mkNamesAux : List (Nat × String) → Nat → List Nat → List (Nat × String)
  | acc, _, [] => acc
  | acc, i, t :: rest => mkNamesAux (dictInsert acc t ("_cte" ++ toString i)) (i + 1) rest

/-- Alias assignment of `sql_with_cte`: one `_cte<i>` alias per distinct node
of `cte_deps`, keyed by identity. -/
def mkNames (cte_deps : List Nat) : List (Nat × String) := mkNamesAux [] 0 cte_deps

/-- The generator inside `sql_with_cte` (pgsqm.py lines 46-49): one
`<alias> AS ( <named render> )` entry per `names.items()` element, evaluated
in order, propagating the first error. -/
def cteEntries (g : Graph) (allNames : List (Nat × String))
    (kw : List (String × Fragment)) : List (Nat × String) → Except Err (List Fragment)
  | [] => .ok []
  | (t, n) :: rest =>
    match sqlWithNamedDeps g t allNames kw with
    | .error e => .error e
    | .ok r =>
      match cteEntries g allNames kw rest with
      | .error e => .error e
      | .ok tail => .ok (Fragment.comp [.ident n, .lit " AS (", r, .lit ")"] :: tail)

/-- `SQL.join`: the items interleaved with the separator, as a `Composed`. -/
def joinFrags (sep : Fragment) (fs : List Fragment) : Fragment :=
  .comp (fs.intersperse sep)

/-- `sql_with_cte` (pgsqm.py lines 43-50): assign aliases, render every CTE
body with the named-reference strategy, join with `"\n   , "`, and append the
root's own named render after `"WITH "` and a newline. -/
def sqlWithCte (g : Graph) (t : Nat) (cte_deps : List Nat)
    (kw : List (String × Fragment)) : Except Err Fragment :=
  let names := mkNames cte_deps
  match cteEntries g names kw names with
  | .error e => .error e
  | .ok entries =>
    match sqlWithNamedDeps g t names kw with
    | .error e => .error e
    | .ok root =>
      .ok (.comp [.lit "WITH ", joinFrags (.lit "\n   , ") entries, .lit "\n", root])

mutual

/-- Counts how many times fragment `a` occurs as a subtree of `f`. -/
def countFragOcc (a : Fragment) : Fragment → Nat
  | .lit s => if fragBeq a (.lit s) then 1 else 0
  | .ident s => if fragBeq a (.ident s) then 1 else 0
  | .comp fs => (if fragBeq a (.comp fs) then 1 else 0) + countFragOccL a fs

/-- Counts subtree occurrences of `a` throughout a fragment list. -/
def countFragOccL (a : Fragment) : List Fragment → Nat
  | [] => 0
  | f :: fs => countFragOcc a f + countFragOccL a fs

end

/-- List of render invocations (one entry per dependency, in dict order) made
by the recursion of `sql_with_subqueries`. -/
def traceWith (f : Nat → List Nat) : List Nat → List Nat
  | [] => []
  | d :: ds => f d ++ traceWith f ds

/-- The sequence of nodes whose templates `sql_with_subqueries` instantiates:
the node itself, followed by the full render trace of each dependency, once
per occurrence in the dependency dict.  It mirrors the recursion of
`sqlWithSubqueries` exactly. -/
def subqTrace (g : Graph) : Nat → Nat → List Nat
  | 0, _ => []
  | fuel + 1, t => t :: traceWith (fun d => subqTrace g fuel d) ((g t).source_tables.map Prod.snd)

/-! The dependency sorter (`sort_dependencies`, pgsqm.py lines 52-72) -/

/-- The mutable loop state of `sort_dependencies`: the `DefaultDict`
visitation state (`0` unvisited, `1` Pending, `2` Done), the work stack
(head = top, i.e. the end Python `pop()`s from), and the output list. -/
structure SortSt where
  state : Nat → Nat
  todo : List Nat
  result : List Nat

/-- Pointwise update of the visitation `DefaultDict`. -/
def upd (f : Nat → Nat) (k v : Nat) : Nat → Nat :=
  fun x => if x = k then v else f x

/-- The `for d in deps: assert state[d] is not Pending; state[d] = Pending`
loop: `none` models the `AssertionError("Circular Table dependency")`. -/
def markPending (state : Nat → Nat) : List Nat → Option (Nat → Nat)
  | [] => some state
  | d :: ds => if state d = 1 then none else markPending (upd state d 1) ds

/-- The `while todo:` loop of `sort_dependencies`, with fuel.  `pySet` maps
the insertion sequence of `{d for d in t.source_tables.values() if ...}` to
the set's iteration order. -/
def sortLoop (g : Graph) (pySet : List Nat → List Nat) :
    Nat → SortSt → Except Err (List Nat)
  | 0, _ => .error .recursionLimit
  | fuel + 1, st =>
    match st.todo with
    | [] => .ok st.result
    | t :: rest =>
      let deps := pySet ((((g t).source_tables.map Prod.snd)).filter (fun d => st.state d != 2))
      if deps.isEmpty then
        sortLoop g pySet fuel ⟨upd st.state t 2, rest, st.result ++ [t]⟩
      else
        match markPending st.state deps with
        | none => .error .assertCycle
        | some st1 => sortLoop g pySet fuel ⟨st1, deps.reverse ++ t :: rest, st.result⟩

/-- `sort_dependencies(table)`: run the loop from the seeded state. -/
def sortDependencies (g : Graph) (pySet : List Nat → List Nat)
    (fuel : Nat) (root : Nat) : Except Err (List Nat) :=
  sortLoop g pySet fuel ⟨fun _ => 0, [root], []⟩

/-- The laws every CPython set honours: iterating a set yields each distinct
inserted element exactly once.  The iteration order itself is an arbitrary
deterministic function of the members (their `id()` hashes), which is why it
is a parameter. -/
def PySetOK (pySet : List Nat → List Nat) : Prop :=
  ∀ l, (pySet l).Nodup ∧ ∀ x, x ∈ pySet l ↔ x ∈ l

/-- One realizable set behaviour: iteration in ascending id order. -/
def ascSet (l : List Nat) : List Nat := l.dedup.insertionSort (· ≤ ·)

/-- Another realizable set behaviour: iteration in descending id order. -/
def descSet (l : List Nat) : List Nat := (ascSet l).reverse

/-- The dependency edge relation of the graph: `gEdge g x y` holds when `y`
is one of `x`'s direct dependencies. -/
def gEdge (g : Graph) (x y : Nat) : Prop :=
  y ∈ (g x).source_tables.map Prod.snd

/-- Reachability along dependency edges. -/
def Reach (g : Graph) (a b : Nat) : Prop :=
  Relation.ReflTransGen (gEdge g) a b

/-- `D` lists (a superset of) the `Table` objects of the Python heap that
matter: it is closed under dependencies.  A real Python process has finitely
many objects, so such a finite closed list always exists. -/
def ClosedDom (g : Graph) (D : List Nat) : Prop :=
  ∀ d ∈ D, ∀ y ∈ (g d).source_tables.map Prod.snd, y ∈ D

/-! Concrete graphs used in witnesses and counterexamples -/

/-- The demo graph of pgsqm.py lines 74-79: `combine` (id 0) depends on
`{h: hund, t: thou, q: hund}` with `hund` (id 1) shared, `thou` is id 2. -/
def gEx : Graph := fun t =>
  if t = 0 then
    { sql := [.lit "SELECT h.", .ph "c", .lit ", h.b, t.b FROM ", .ph "h",
              .lit " LEFT JOIN ", .ph "t", .lit " USING (a) LEFT JOIN ", .ph "q",
              .lit " USING (a)"],
      source_tables := [("h", 1), ("t", 2), ("q", 1)] }
  else if t = 1 then
    { sql := [.lit "SELECT ", .ph "c", .lit ", b FROM (VALUES (1, 100), (2, 200)) t(",
              .ph "c", .lit ", b)"],
      source_tables := [] }
  else
    { sql := [.lit "SELECT ", .ph "c", .lit ", b FROM (VALUES (1, 1000)) t(",
              .ph "c", .lit ", b)"],
      source_tables := [] }

/-- The kwargs of the demo: `{"c": Identifier("a")}` (pgsqm.py line 83). -/
def exArgs : List (String × Fragment) := [("c", .ident "a")]

/-- Root 0 with two independent leaf dependencies 1 and 2 (whose contents are
identical: they are distinct instances with the same template). -/
def g7 : Graph := fun t =>
  if t = 0 then { sql := [], source_tables := [("x", 1), ("y", 2)] }
  else { sql := [], source_tables := [] }

/-- Acyclic triangle: 0 depends on 1 and 2, and 2 also depends on 1. -/
def gTri : Graph := fun t =>
  if t = 0 then { sql := [], source_tables := [("x", 1), ("y", 2)] }
  else if t = 2 then { sql := [], source_tables := [("z", 1)] }
  else { sql := [], source_tables := [] }

/-- A two-node dependency cycle: 0 → 1 → 0. -/
def gCyc : Graph := fun t =>
  if t = 0 then { sql := [], source_tables := [("x", 1)] }
  else if t = 1 then { sql := [], source_tables := [("y", 0)] }
  else { sql := [], source_tables := [] }

/-- Node 5 has template `{a} {b}` but only the dependency `a`; `b` is a
placeholder the caller must supply. -/
def gC6 : Graph := fun t =>
  if t = 5 then { sql := [.ph "a", .lit " ", .ph "b"], source_tables := [("a", 6)] }
  else { sql := [.lit "L"], source_tables := [] }

/-- Node 7 has a dependency named `x`; rendering it with an extra value also
named `x` collides. -/
def gColl : Graph := fun t =>
  if t = 7 then { sql := [.ph "x"], source_tables := [("x", 8)] }
  else { sql := [.lit "L"], source_tables := [] }

/-- A chain 0 → 1 → 2: node 2 is in 0's transitive closure but is not a
direct dependency of 0. -/
def gChain : Graph := fun t =>
  if t = 0 then { sql := [.lit "SELECT * FROM ", .ph "x"], source_tables := [("x", 1)] }
  else if t = 1 then { sql := [.lit "SELECT * FROM ", .ph "y"], source_tables := [("y", 2)] }
  else { sql := [.lit "L"], source_tables := [] }

/-! Helper lemmas about the renderers -/

/-- With no dependency names, the duplicate-keyword check never fires. -/
lemma firstDup_nil (kw : List (String × Fragment)) : firstDup [] kw = none := by
  induction kw with
  | nil => rfl
  | cons a l ih => simp [firstDup, List.find?]

/-- If some extra-value key is also a dependency name, the duplicate-keyword
check fires. -/
lemma firstDup_isSome_of_overlap {names : List String} {kw : List (String × Fragment)}
    (h : ∃ k, k ∈ kw.map Prod.fst ∧ k ∈ names) : ∃ k, firstDup names kw = some k := by
  obtain ⟨k, hk, hn⟩ := h
  rcases hfd : firstDup names kw with _ | k'
  · rw [firstDup, List.find?_eq_none] at hfd
    exact absurd (by simpa using hn) (by simpa using hfd k hk)
  · exact ⟨k', rfl⟩

/-- `formatT` only ever raises the `KeyError` of an unresolved placeholder. -/
lemma formatItems_error_keyError {m : List (String × Fragment)} :
    ∀ {tpl : Template} {e : Err}, formatItems m tpl = .error e → ∃ n, e = .keyError n := by
  intro tpl
  induction tpl with
  | nil => intro e h; simp [formatItems] at h
  | cons it rest ih =>
    intro e h
    match it with
    | .lit s =>
      rw [formatItems] at h
      rcases hr : formatItems m rest with _ | fs <;> rw [hr] at h <;> simp at h
      exact h ▸ ih hr
    | .ph n =>
      rw [formatItems] at h
      rcases hl : alookup m n with _ | f <;> rw [hl] at h
      · simp at h; exact ⟨n, h.symm⟩
      · rcases hr : formatItems m rest with _ | fs <;> rw [hr] at h <;> simp at h
        exact h ▸ ih hr

/-- `formatT` only ever raises the `KeyError` of an unresolved placeholder. -/
lemma formatT_error_keyError {tpl : Template} {m : List (String × Fragment)} {e : Err}
    (h : formatT tpl m = .error e) : ∃ n, e = .keyError n := by
  rw [formatT] at h
  rcases hr : formatItems m tpl with _ | fs <;> rw [hr] at h
  · injection h with h'; exact formatItems_error_keyError (h' ▸ hr)
  · exact absurd h (by simp)

/-- The alias-lookup comprehension only ever raises the `KeyError` of a
dependency missing from the alias mapping. -/
lemma buildNamed_error_alias {deps : List (Nat × String)} :
    ∀ {st : List (String × Nat)} {e : Err}, buildNamed deps st = .error e →
      ∃ d, e = .missingAlias d ∧ ∃ p ∈ st, p.2 = d ∧ alookup deps d = none := by
  intro st
  induction st with
  | nil => intro e h; simp [buildNamed] at h
  | cons p rest ih =>
    intro e h
    obtain ⟨s, d⟩ := p
    rw [buildNamed] at h
    rcases hl : alookup deps d with _ | a <;> rw [hl] at h
    · refine ⟨d, by injection h with h'; exact h'.symm, ⟨(s, d), by simp, rfl, hl⟩⟩
    · rcases hr : buildNamed deps rest with _ | tail <;> rw [hr] at h
      · injection h with h'
        obtain ⟨d', he, q, hq, hqd, hqn⟩ := ih (h' ▸ hr)
        exact ⟨d', he, q, by simp [hq], hqd, hqn⟩
      · exact absurd h (by simp)

/-- If every direct dependency has an alias, the comprehension succeeds. -/
lemma buildNamed_ok {deps : List (Nat × String)} :
    ∀ {st : List (String × Nat)}, (∀ p ∈ st, (alookup deps p.2).isSome = true) →
      ∃ m, buildNamed deps st = .ok m := by
  intro st
  induction st with
  | nil => exact fun _ => ⟨[], rfl⟩
  | cons p rest ih =>
    intro h
    obtain ⟨s, d⟩ := p
    have hd := h (s, d) (by simp)
    rcases hl : alookup deps d with _ | a
    · rw [hl] at hd; simp at hd
    · obtain ⟨m, hm⟩ := ih fun q hq => h q (by simp [hq])
      exact ⟨_, by rw [buildNamed, hl, hm]⟩

/-- If some direct dependency has no alias, the comprehension raises the
missing-alias `KeyError`. -/
lemma buildNamed_error_of_missing {deps : List (Nat × String)} :
    ∀ {st : List (String × Nat)}, (∃ p ∈ st, alookup deps p.2 = none) →
      ∃ d, buildNamed deps st = .error (.missingAlias d) := by
  intro st
  induction st with
  | nil => rintro ⟨p, hp, -⟩; simp at hp
  | cons q rest ih =>
    rintro ⟨p, hp, hnone⟩
    obtain ⟨s, d⟩ := q
    rcases hl : alookup deps d with _ | a
    · exact ⟨d, by rw [buildNamed, hl]⟩
    · rcases List.mem_cons.1 hp with rfl | hp'
      · rw [hl] at hnone; simp at hnone
      · obtain ⟨d', hd'⟩ := ih ⟨p, hp', hnone⟩
        exact ⟨d', by rw [buildNamed, hl, hd']⟩

/-- The comprehension of `sql_with_named_deps` looks a dependency up only in
the alias mapping entries of the direct dependencies. -/
lemma buildNamed_congr {deps1 deps2 : List (Nat × String)} :
    ∀ {st : List (String × Nat)}, (∀ p ∈ st, alookup deps1 p.2 = alookup deps2 p.2) →
      buildNamed deps1 st = buildNamed deps2 st := by
  intro st
  induction st with
  | nil => intro _; rfl
  | cons q rest ih =>
    intro h
    obtain ⟨s, d⟩ := q
    have hd : alookup deps1 d = alookup deps2 d := h (s, d) (by simp)
    rw [buildNamed, buildNamed, ← hd, ih fun p hp => h p (by simp [hp])]

/-! Claim C4: identity-based equality and hashing -/

/-- C4: Two `Table` values are equal — and then also hash-equal — exactly
when they are the same allocated instance (same `id()`); two distinct
instances with identical template and dependency content are unequal
(`tableEq` on tids 1 and 2 with equal `Node` content is `false`, and the
content-identical leaves 1 and 2 of `g7` both survive sorting, which
deduplicates by identity, never by content). -/
theorem table_identity_semantics :
    (∀ a b : PyTable, tableEq a b = true ↔ a.tid = b.tid) ∧
    (∀ a b : PyTable, (tableEq a b = true ∧ tableHash a = tableHash b) ↔ a.tid = b.tid) ∧
    tableEq ⟨1, Node.mk [] []⟩ ⟨2, Node.mk [] []⟩ = false ∧
    g7 1 = g7 2 ∧
    sortDependencies g7 ascSet 20 0 = .ok [2, 1, 0] := by
  refine ⟨fun a b => by simp [tableEq], fun a b => ?_, rfl, rfl, rfl⟩
  constructor
  · rintro ⟨he, -⟩; simpa [tableEq] using he
  · intro h; exact ⟨by simp [tableEq, h], by rw [tableHash, tableHash, h]⟩

/-! Claim C8: rendering a node with zero dependencies -/

/-- C8: For a node with an empty dependency dict, both renderers produce
exactly the template with only the extra values substituted: the dependency
comprehension is empty, the duplicate-keyword check cannot fire, and the
substitution mapping is `kw` alone. -/
theorem render_zero_deps_is_template_subst (g : Graph) (fuel t : Nat)
    (deps : List (Nat × String)) (kw : List (String × Fragment))
    (h : (g t).source_tables = []) :
    sqlWithSubqueries g kw (fuel + 1) t = formatT (g t).sql kw ∧
    sqlWithNamedDeps g t deps kw = formatT (g t).sql kw := by
  constructor
  · rw [sqlWithSubqueries, h]
    simp [buildWith, firstDup_nil]
  · rw [sqlWithNamedDeps, h]
    simp [buildNamed, firstDup_nil]

/-- C8 witness: the leaf `thou` (id 2) of the demo graph. -/
theorem render_zero_deps_is_template_subst_witness :
    sqlWithSubqueries gEx exArgs 4 2 = formatT (gEx 2).sql exArgs ∧
    sqlWithNamedDeps gEx 2 [] exArgs = formatT (gEx 2).sql exArgs :=
  render_zero_deps_is_template_subst gEx 3 2 [] exArgs rfl

/-! Claim C9: `sql_with_cte` with an empty CTE list -/

/-- C9: With an empty `cte_deps` list, `sql_with_cte` still emits the literal
`"WITH "` prefix, followed by the empty joined CTE list and then the root's
named-reference rendering (errors of that rendering propagate unchanged). -/
theorem cte_empty_deps_emits_with_clause (g : Graph) (t : Nat)
    (kw : List (String × Fragment)) :
    sqlWithCte g t [] kw =
      (sqlWithNamedDeps g t [] kw).map
        (fun r => Fragment.comp [.lit "WITH ", joinFrags (.lit "\n   , ") [], .lit "\n", r]) ∧
    joinFrags (.lit "\n   , ") [] = Fragment.comp [] := by
  refine ⟨?_, rfl⟩
  rw [sqlWithCte]
  cases h : sqlWithNamedDeps g t [] kw <;>
    simp [mkNames, mkNamesAux, cteEntries, h, Except.map]

/-! Claim C10: `sql_with_named_deps` consults only direct dependencies -/

/-- C10: A single `sql_with_named_deps` call reads the alias mapping only at
the node's direct dependencies (two mappings agreeing there give identical
results), a mapping covering the direct dependencies never raises the
missing-alias error, and concretely node 0 of the chain 0 → 1 → 2 renders
successfully with a mapping that lacks the transitive dependency 2. -/
theorem named_deps_direct_only (g : Graph) (t : Nat) (kw : List (String × Fragment)) :
    (∀ deps1 deps2 : List (Nat × String),
        (∀ p ∈ (g t).source_tables, alookup deps1 p.2 = alookup deps2 p.2) →
        sqlWithNamedDeps g t deps1 kw = sqlWithNamedDeps g t deps2 kw) ∧
    (∀ deps : List (Nat × String),
        (∀ p ∈ (g t).source_tables, (alookup deps p.2).isSome = true) →
        ∀ d, sqlWithNamedDeps g t deps kw ≠ .error (.missingAlias d)) ∧
    sqlWithNamedDeps gChain 0 [(1, "a1")] [] =
      .ok (.comp [.lit "SELECT * FROM ", .comp [.ident "a1", .lit " AS ", .ident "x"]]) := by
  refine ⟨fun deps1 deps2 hagree => ?_, fun deps hcover d hcontra => ?_, rfl⟩
  · rw [sqlWithNamedDeps, sqlWithNamedDeps, buildNamed_congr hagree]
  · obtain ⟨m, hm⟩ := buildNamed_ok hcover
    rw [sqlWithNamedDeps, hm] at hcontra
    rcases hfd : firstDup ((g t).source_tables.map Prod.fst) kw with _ | k <;>
      rw [hfd] at hcontra
    · obtain ⟨n, hn⟩ := formatT_error_keyError hcontra
      simp at hn
    · simp at hcontra

/-- C10 witness: instantiate the congruence part on the chain graph, with a
second mapping that differs away from the direct dependencies. -/
theorem named_deps_direct_only_witness :
    sqlWithNamedDeps gChain 0 [(1, "a1")] [] =
      sqlWithNamedDeps gChain 0 [(1, "a1"), (2, "zz"), (9, "ww")] [] :=
  (named_deps_direct_only gChain 0 []).1 [(1, "a1")] [(1, "a1"), (2, "zz"), (9, "ww")]
    (by decide)

/-! Claim C6: lookup errors of `sql_with_named_deps` (corrected) -/

/-- C6 counterexample: node 5's template has placeholder `b` that is neither
a dependency nor an extra value.  The alias mapping covers every dependency
of node 5, yet the render raises `KeyError("b")` — in Python a
`LookupError` just like the missing-alias error — so "no lookup error is
raised when every dependency has an entry" is false as stated. -/
theorem named_deps_lookup_error_cex :
    sqlWithNamedDeps gC6 5 [(6, "al")] [] = .error (.keyError "b") ∧
    isLookupError (.keyError "b") = true ∧
    ((gC6 5).source_tables.all fun p => (alookup [(6, "al")] p.2).isSome) = true :=
  ⟨rfl, rfl, rfl⟩

/-- C6 (amended): `sql_with_named_deps` raises the missing-alias `KeyError`
(`deps[t]`) if and only if the alias mapping lacks an entry for some direct
dependency of the node; other lookup errors (the templating `KeyError` of an
unresolved placeholder) can still occur when all dependencies are covered. -/
theorem named_deps_missing_alias_iff (g : Graph) (t : Nat)
    (deps : List (Nat × String)) (kw : List (String × Fragment)) :
    (∃ d, sqlWithNamedDeps g t deps kw = .error (.missingAlias d)) ↔
    (∃ p ∈ (g t).source_tables, alookup deps p.2 = none) := by
  constructor
  · rintro ⟨d, hd⟩
    rw [sqlWithNamedDeps] at hd
    rcases hb : buildNamed deps (g t).source_tables with e | m <;> rw [hb] at hd
    · obtain ⟨d', he, p, hp, hpd, hnone⟩ := buildNamed_error_alias hb
      exact ⟨p, hp, hpd ▸ hnone⟩
    · rcases hfd : firstDup ((g t).source_tables.map Prod.fst) kw with _ | k <;>
        rw [hfd] at hd
      · obtain ⟨n, hn⟩ := formatT_error_keyError hd
        simp at hn
      · simp at hd
  · intro h
    obtain ⟨d, hd⟩ := buildNamed_error_of_missing h
    exact ⟨d, by rw [sqlWithNamedDeps, hd]⟩

/-! Claim C5: name collisions between dependencies and extra values -/

/-- C5: When a node's dependency names overlap the extra-value keys, the
collision is a raised caller error in *both* renderers (never a silent
precedence of either side): Python's `format(**deps, **kwargs)` raises
`TypeError` for the duplicated keyword once the comprehension has been
evaluated, and any error raised earlier by the comprehension itself also
aborts the render.  When both comprehensions succeed the two renderers raise
the *same* duplicate-keyword error, so the policy is applied identically. -/
theorem render_collision_raises_in_both (g : Graph) (fuel t : Nat)
    (deps : List (Nat × String)) (kw : List (String × Fragment))
    (hover : ∃ k, k ∈ kw.map Prod.fst ∧ k ∈ (g t).source_tables.map Prod.fst) :
    (∃ e, sqlWithSubqueries g kw (fuel + 1) t = .error e) ∧
    (∃ e, sqlWithNamedDeps g t deps kw = .error e) ∧
    (∀ k m1 m2, firstDup ((g t).source_tables.map Prod.fst) kw = some k →
      (buildWith (fun d => sqlWithSubqueries g kw fuel d) (g t).source_tables = .ok m1 →
        sqlWithSubqueries g kw (fuel + 1) t = .error (.duplicateKeyword k)) ∧
      (buildNamed deps (g t).source_tables = .ok m2 →
        sqlWithNamedDeps g t deps kw = .error (.duplicateKeyword k))) := by
  obtain ⟨k, hk⟩ := firstDup_isSome_of_overlap hover
  refine ⟨?_, ?_, fun k' m1 m2 hk' => ⟨fun hb => ?_, fun hb => ?_⟩⟩
  · rw [sqlWithSubqueries]
    rcases hb : buildWith (fun d => sqlWithSubqueries g kw fuel d) (g t).source_tables with
      e | m
    · exact ⟨e, rfl⟩
    · rw [hk]; exact ⟨.duplicateKeyword k, rfl⟩
  · rw [sqlWithNamedDeps]
    rcases hb : buildNamed deps (g t).source_tables with e | m
    · exact ⟨e, rfl⟩
    · rw [hk]; exact ⟨.duplicateKeyword k, rfl⟩
  · rw [sqlWithSubqueries, hb, hk']
  · rw [sqlWithNamedDeps, hb, hk']

/-- C5 witness: node 7 has the dependency name `x` and the caller also passes
the extra value `x`; both renderers raise. -/
theorem render_collision_raises_in_both_witness :
    (∃ e, sqlWithSubqueries gColl [("x", Fragment.ident "v")] 3 7 = .error e) ∧
    (∃ e, sqlWithNamedDeps gColl 7 [(8, "al")] [("x", Fragment.ident "v")] = .error e) :=
  ⟨(render_collision_raises_in_both gColl 2 7 [(8, "al")] [("x", Fragment.ident "v")]
      ⟨"x", by decide, by decide⟩).1,
   (render_collision_raises_in_both gColl 2 7 [(8, "al")] [("x", Fragment.ident "v")]
      ⟨"x", by decide, by decide⟩).2.1⟩

/-! Claim C3: shared nodes — once per occurrence vs exactly once -/

/-- The render trace distributes over the dependency list: one full sub-trace
per dependency occurrence. -/
lemma count_traceWith (f : Nat → List Nat) (n : Nat) :
    ∀ ds : List Nat, (traceWith f ds).count n = (ds.map fun d => (f d).count n).sum := by
  intro ds
  induction ds with
  | nil => rfl
  | cons d rest ih => rw [traceWith, List.count_append, ih, List.map_cons, List.sum_cons]

/-- Keys after a Python dict insertion: the old keys, plus the new key if it
was absent. -/
lemma dictInsert_keys_mem :
    ∀ (l : List (Nat × String)) (k : Nat) (v : String) (x : Nat),
      x ∈ (dictInsert l k v).map Prod.fst ↔ x ∈ l.map Prod.fst ∨ x = k := by
  intro l k v x
  induction l with
  | nil => simp [dictInsert]
  | cons p rest ih =>
    obtain ⟨k', v'⟩ := p
    by_cases h : k' = k
    · subst h; simp [dictInsert]; tauto
    · simp [dictInsert, h, ih]; tauto

/-- Python dict insertion keeps the keys duplicate-free. -/
lemma dictInsert_keys_nodup :
    ∀ (l : List (Nat × String)) (k : Nat) (v : String),
      (l.map Prod.fst).Nodup → ((dictInsert l k v).map Prod.fst).Nodup := by
  intro l k v
  induction l with
  | nil => intro _; simp [dictInsert]
  | cons p rest ih =>
    obtain ⟨k', v'⟩ := p
    intro hnd
    rw [List.map_cons, List.nodup_cons] at hnd
    by_cases h : k' = k
    · subst h; simpa [dictInsert, List.nodup_cons] using hnd
    · rw [dictInsert, if_neg h, List.map_cons, List.nodup_cons]
      refine ⟨fun hmem => ?_, ih hnd.2⟩
      rcases (dictInsert_keys_mem rest k v k').1 hmem with hin | rfl
      · exact hnd.1 hin
      · exact h rfl

/-- Membership in the alias-dict keys built by `mkNames`. -/
lemma mkNamesAux_keys_mem :
    ∀ (cte : List Nat) (acc : List (Nat × String)) (i x : Nat),
      x ∈ (mkNamesAux acc i cte).map Prod.fst ↔ x ∈ acc.map Prod.fst ∨ x ∈ cte := by
  intro cte
  induction cte with
  | nil => intro acc i x; simp [mkNamesAux]
  | cons t rest ih =>
    intro acc i x
    rw [mkNamesAux, ih, dictInsert_keys_mem]
    simp; tauto

/-- The alias dict built by `mkNames` has duplicate-free keys. -/
lemma mkNamesAux_keys_nodup :
    ∀ (cte : List Nat) (acc : List (Nat × String)) (i : Nat),
      (acc.map Prod.fst).Nodup → ((mkNamesAux acc i cte).map Prod.fst).Nodup := by
  intro cte
  induction cte with
  | nil => intro acc i h; simpa [mkNamesAux] using h
  | cons t rest ih =>
    intro acc i h
    exact ih _ _ (dictInsert_keys_nodup acc t _ h)

/-- C3: In nested-subquery mode every occurrence of a dependency contributes
its own complete re-render (the render trace of a node is the node followed
by one full sub-trace per dependency occurrence, so a node shared by `k`
parents is traced once per path), while in CTE mode each hoisted node owns
exactly one alias-dict entry and hence exactly one body render, no matter how
often it is referenced.  Concretely, on the demo graph the rendering of the
shared `hund` occurs twice inside `sql_with_subqueries(combine)` and the
`hund` body render occurs exactly once inside
`sql_with_cte(combine, [hund, thou])`. -/
theorem shared_dep_render_counts :
    (∀ (g : Graph) (fuel t n : Nat),
      (subqTrace g (fuel + 1) t).count n =
        (if t = n then 1 else 0) +
          (((g t).source_tables.map Prod.snd).map fun d => (subqTrace g fuel d).count n).sum) ∧
    (∀ (cte : List Nat) (n : Nat), n ∈ cte → ((mkNames cte).map Prod.fst).count n = 1) ∧
    (match sqlWithSubqueries gEx exArgs 3 1, sqlWithSubqueries gEx exArgs 4 0 with
      | .ok a, .ok b => some (countFragOcc a b)
      | _, _ => none) = some 2 ∧
    (match sqlWithNamedDeps gEx 1 (mkNames [1, 2]) exArgs, sqlWithCte gEx 0 [1, 2] exArgs with
      | .ok a, .ok b => some (countFragOcc a b)
      | _, _ => none) = some 1 := by
  refine ⟨fun g fuel t n => ?_, fun cte n hn => ?_, rfl, rfl⟩
  · rw [subqTrace, List.count_cons, count_traceWith]
    rcases h : (t == n) with _ | _
    · simp_all [Nat.add_comm]
    · simp_all [Nat.add_comm]
  · exact List.count_eq_one_of_mem
      (mkNamesAux_keys_nodup cte [] 0 (by simp))
      ((mkNamesAux_keys_mem cte [] 0 n).2 (Or.inr hn))

/-- C3 witness: the hoisted list `[hund, thou]` yields exactly one alias-dict
entry for `hund`. -/
theorem shared_dep_render_counts_witness :
    ((mkNames [1, 2]).map Prod.fst).count 1 = 1 :=
  shared_dep_render_counts.2.1 [1, 2] 1 (by decide)

/-! Helper lemmas about the sorter -/

/-- Unfolding: an exhausted work stack returns the accumulated result. -/
lemma sortLoop_succ_nil (g : Graph) (ps : List Nat → List Nat) (fuel : Nat)
    (s : Nat → Nat) (r : List Nat) : sortLoop g ps (fuel + 1) ⟨s, [], r⟩ = .ok r := rfl

/-- Unfolding: one iteration of the `while todo:` loop. -/
lemma sortLoop_succ_cons (g : Graph) (ps : List Nat → List Nat) (fuel : Nat)
    (s : Nat → Nat) (t : Nat) (rest r : List Nat) :
    sortLoop g ps (fuel + 1) ⟨s, t :: rest, r⟩ =
      if (ps (((g t).source_tables.map Prod.snd).filter fun d => s d != 2)).isEmpty then
        sortLoop g ps fuel ⟨upd s t 2, rest, r ++ [t]⟩
      else
        match markPending s (ps (((g t).source_tables.map Prod.snd).filter fun d => s d != 2)) with
        | none => .error .assertCycle
        | some s1 =>
          sortLoop g ps fuel
            ⟨s1, (ps (((g t).source_tables.map Prod.snd).filter fun d => s d != 2)).reverse
                  ++ t :: rest, r⟩ := rfl

/-- Ascending id order is a lawful set iteration. -/
lemma pySetOK_ascSet : PySetOK ascSet := fun l =>
  ⟨(List.perm_insertionSort _ l.dedup).symm.nodup (List.nodup_dedup l),
   fun _ => (List.perm_insertionSort _ l.dedup).mem_iff.trans List.mem_dedup⟩

/-- Descending id order is a lawful set iteration. -/
lemma pySetOK_descSet : PySetOK descSet := fun l =>
  ⟨by simpa [descSet] using (pySetOK_ascSet l).1,
   fun x => by rw [descSet, List.mem_reverse]; exact (pySetOK_ascSet l).2 x⟩

/-- A duplicate-free list whose members are exactly `a` and `b` is one of the
two orderings of the pair. -/
lemma nodup_pair_cases {l : List Nat} {a b : Nat} (hab : a ≠ b) (hn : l.Nodup)
    (hm : ∀ x, x ∈ l ↔ x ∈ ([a, b] : List Nat)) : l = [a, b] ∨ l = [b, a] := by
  match l with
  | [] => exact absurd ((hm a).2 (by simp)) (by simp)
  | [x] =>
    have ha := (hm a).2 (by simp)
    have hb := (hm b).2 (by simp)
    simp at ha hb
    exact absurd (ha.trans hb.symm) hab
  | x :: y :: rest =>
    have hx := (hm x).1 (by simp)
    have hy := (hm y).1 (by simp)
    rw [List.nodup_cons, List.nodup_cons] at hn
    have hxy : x ≠ y := fun hcon => hn.1 (by simp [hcon])
    have hrest : rest = [] := by
      rw [List.eq_nil_iff_forall_not_mem]
      intro z hz
      have hzm := (hm z).1 (by simp [hz])
      simp at hx hy hzm
      rcases hx with rfl | rfl <;> rcases hy with rfl | rfl <;>
        first
          | exact hxy rfl
          | rcases hzm with rfl | rfl
            · exact hn.1 (by simp [hz])
            · exact hn.2.1 hz
          | rcases hzm with rfl | rfl
            · exact hn.2.1 hz
            · exact hn.1 (by simp [hz])
    subst hrest
    have ha := (hm a).2 (by simp)
    simp at hx hy ha
    rcases hx with rfl | rfl <;> rcases hy with rfl | rfl
    · exact absurd rfl hxy
    · exact Or.inl rfl
    · exact Or.inr rfl
    · exact absurd rfl hxy

/-! Claim C7: determinism and ordering stability (corrected) -/

/-- C7 counterexample: the same graph `g7` (same dependency dict, same
insertion order `x` before `y`), under two lawful set-iteration behaviours —
both realizable CPython address layouts — produces two different output
sequences.  The ordering among independent dependencies therefore follows
the id-keyed set order, not the dependency mapping's iteration order. -/
theorem sort_output_not_mapping_stable_cex :
    sortDependencies g7 ascSet 20 0 = .ok [2, 1, 0] ∧
    sortDependencies g7 descSet 20 0 = .ok [1, 2, 0] ∧
    (([2, 1, 0] : List Nat) == [1, 2, 0]) = false :=
  ⟨rfl, rfl, rfl⟩

/-- C7 (amended): `sort_dependencies` is deterministic once the input graph
*and* the set-iteration behaviour (the object-identity layout) are fixed: on
`g7` the output is exactly the reverse of the set's iteration order of the
two independent dependencies, followed by the root.  Stability holds with
respect to that set order, not the dependency mapping's insertion order. -/
theorem sort_output_follows_set_order (pySet : List Nat → List Nat)
    (hps : PySetOK pySet) :
    sortDependencies g7 pySet 20 0 = .ok ((pySet [1, 2]).reverse ++ [0]) := by
  have h0 : pySet [] = [] :=
    List.eq_nil_iff_forall_not_mem.2 fun x hx => by simpa using ((hps []).2 x).1 hx
  rcases nodup_pair_cases (by decide : (1 : Nat) ≠ 2) (hps [1, 2]).1 (hps [1, 2]).2 with
    h | h <;>
    simp [sortDependencies, sortLoop, g7, h, h0, markPending, upd]

/-- C7 witness: the amended theorem applied to the ascending set order. -/
theorem sort_output_follows_set_order_witness :
    sortDependencies g7 ascSet 20 0 = .ok ((ascSet [1, 2]).reverse ++ [0]) :=
  sort_output_follows_set_order ascSet pySetOK_ascSet

/-! Claim C1: acyclic graphs and the sorter (code bug) -/

/-- Rank function witnessing that the triangle graph is acyclic. -/
def rankTri (n : Nat) : Nat := if n = 0 then 2 else if n = 2 then 1 else 0

/-- Every dependency edge of the triangle strictly decreases the rank. -/
lemma gTri_edge_rank {x y : Nat} (h : gEdge gTri x y) : rankTri y < rankTri x := by
  rw [gEdge] at h
  by_cases hx : x = 0
  · subst hx
    simp [gTri] at h
    rcases h with rfl | rfl <;> simp [rankTri]
  · by_cases hx2 : x = 2
    · subst hx2
      simp [gTri] at h
      subst h
      simp [rankTri]
    · simp [gTri, hx, hx2] at h

/-- The triangle graph has no dependency cycle at all. -/
lemma gTri_acyclic : ∀ c, ¬ Relation.TransGen (gEdge gTri) c c := by
  have hrank : ∀ p q, Relation.TransGen (gEdge gTri) p q → rankTri q < rankTri p := by
    intro p q h
    induction h with
    | single h1 => exact gTri_edge_rank h1
    | tail _ h2 ih => exact lt_trans (gTri_edge_rank h2) ih
  exact fun c hc => lt_irrefl _ (hrank c c hc)

/-- C1 (code bug): the triangle graph 0 → {1, 2}, 2 → {1} is acyclic (no
node is in a dependency cycle), yet under the ascending set order — a
realizable CPython layout — `sort_dependencies` raises the
`AssertionError("Circular Table dependency")` instead of returning a
topological order: node 1 is still `Pending` from expanding node 0 when node
2's dependencies are checked.  Under the other realizable order the same
graph sorts fine, which shows the failure is order-dependent, not a cycle. -/
theorem sort_acyclic_false_cycle_bug :
    (∀ c, ¬ Relation.TransGen (gEdge gTri) c c) ∧
    PySetOK ascSet ∧ PySetOK descSet ∧
    sortDependencies gTri ascSet 20 0 = .error .assertCycle ∧
    sortDependencies gTri descSet 20 0 = .ok [1, 2, 0] :=
  ⟨gTri_acyclic, pySetOK_ascSet, pySetOK_descSet, rfl, rfl⟩

/-! Claim C2 machinery: invariants of the sorter loop -/

/-- Loop invariant of `sortLoop`, relative to a dependency-closed finite
domain `D` containing `root`. -/
structure SInv (g : Graph) (D : List Nat) (root : Nat) (st : SortSt) : Prop where
  todo_sub : ∀ x ∈ st.todo, x ∈ D
  state_le : ∀ d, st.state d ≤ 2
  done_mem : ∀ d, st.state d = 2 ↔ d ∈ st.result
  topo : ∀ pre x post, st.result = pre ++ x :: post →
    ∀ y ∈ (g x).source_tables.map Prod.snd, y ∈ pre
  root_ok : root ∈ st.todo ∨ st.state root = 2

/-- A successful `markPending` sets exactly the listed nodes to `Pending`. -/
lemma markPending_some_spec :
    ∀ {ds : List Nat} {s s1 : Nat → Nat}, markPending s ds = some s1 →
      ∀ x, s1 x = if x ∈ ds then 1 else s x := by
  intro ds
  induction ds with
  | nil =>
    intro s s1 h x
    injection h with h
    subst h
    simp
  | cons d rest ih =>
    intro s s1 h x
    rw [markPending] at h
    by_cases hd : s d = 1
    · rw [if_pos hd] at h; exact absurd h (by simp)
    · rw [if_neg hd] at h
      rw [ih h x]
      by_cases hx : x ∈ rest
      · rw [if_pos hx, if_pos (List.mem_cons_of_mem d hx)]
      · rw [if_neg hx]
        simp only [upd]
        by_cases hxd : x = d
        · subst hxd; rw [if_pos rfl, if_pos (List.mem_cons_self x rest)]
        · rw [if_neg hxd, if_neg (by simp [hxd, hx])]

/-- A successful `markPending` found none of the listed nodes `Pending`. -/
lemma markPending_some_prev :
    ∀ {ds : List Nat} {s s1 : Nat → Nat}, markPending s ds = some s1 → ds.Nodup →
      ∀ d ∈ ds, s d ≠ 1 := by
  intro ds
  induction ds with
  | nil => intro s s1 _ _ d hd; simp at hd
  | cons d rest ih =>
    intro s s1 h hnd x hx
    rw [markPending] at h
    by_cases hd : s d = 1
    · rw [if_pos hd] at h; exact absurd h (by simp)
    · rw [if_neg hd] at h
      rw [List.nodup_cons] at hnd
      rcases List.mem_cons.1 hx with rfl | hx2
      · exact hd
      · have hres := ih h hnd.2 x hx2
        simp only [upd] at hres
        rw [if_neg (show x ≠ d from fun hc => hnd.1 (hc ▸ hx2))] at hres
        exact hres

/-- Members of the not-yet-Done dependency set. -/
lemma mem_deps_not_done {ps : List Nat → List Nat} (hps : PySetOK ps)
    {s : Nat → Nat} {vals : List Nat} {y : Nat}
    (hy : y ∈ ps (vals.filter fun d => s d != 2)) : y ∈ vals ∧ s y ≠ 2 := by
  have hmem := ((hps _).2 y).1 hy
  rw [List.mem_filter] at hmem
  exact ⟨hmem.1, by simpa using hmem.2⟩

/-- An empty dependency set means every dependency is already Done. -/
lemma deps_all_done {ps : List Nat → List Nat} (hps : PySetOK ps)
    {s : Nat → Nat} {vals : List Nat}
    (he : (ps (vals.filter fun d => s d != 2)).isEmpty = true) :
    ∀ y ∈ vals, s y = 2 := by
  intro y hy
  by_contra hne
  have hyf : y ∈ vals.filter fun d => s d != 2 := List.mem_filter.2 ⟨hy, by simpa using hne⟩
  have hmem := ((hps _).2 y).2 hyf
  rw [List.isEmpty_iff.1 he] at hmem
  simp at hmem

/-- Splitting a snoc: the split point is inside the prefix or at the end. -/
lemma concat_split :
    ∀ (l pre post : List Nat) (a x : Nat), l ++ [a] = pre ++ x :: post →
      (∃ post2, l = pre ++ x :: post2) ∨ (pre = l ∧ x = a ∧ post = []) := by
  intro l
  induction l with
  | nil =>
    intro pre post a x h
    cases pre with
    | nil =>
      rw [List.nil_append, List.nil_append] at h
      injection h with h1 h2
      exact Or.inr ⟨rfl, h1.symm, h2.symm⟩
    | cons p pre2 =>
      have hlen := congrArg List.length h
      simp [List.length_append] at hlen
  | cons b l2 ih =>
    intro pre post a x h
    cases pre with
    | nil =>
      rw [List.nil_append] at h
      injection h with h1 h2
      exact Or.inl ⟨l2, by rw [← h1, List.nil_append]⟩
    | cons p pre2 =>
      rw [List.cons_append, List.cons_append] at h
      injection h with h1 h2
      subst h1
      rcases ih pre2 post a x h2 with ⟨post2, hp⟩ | ⟨hp, hx, hpost⟩
      · exact Or.inl ⟨post2, by rw [List.cons_append, hp]⟩
      · exact Or.inr ⟨by rw [hp], hx, hpost⟩

/-- The invariant holds at the seeded initial state. -/
lemma SInv_init {g : Graph} {D : List Nat} {root : Nat} (hroot : root ∈ D) :
    SInv g D root ⟨fun _ => 0, [root], []⟩ := by
  refine ⟨?_, ?_, ?_, ?_, ?_⟩
  · intro x hx
    simp at hx
    subst hx
    exact hroot
  · intro d; simp
  · intro d; simp
  · intro pre x post h
    exact absurd h (by cases pre <;> simp)
  · exact Or.inl (by simp)

/-- The append branch (all dependencies Done) preserves the invariant. -/
lemma SInv_append {g : Graph} {D : List Nat} {root : Nat} {ps : List Nat → List Nat}
    (hps : PySetOK ps) {s : Nat → Nat} {t : Nat} {rest r : List Nat}
    (hinv : SInv g D root ⟨s, t :: rest, r⟩)
    (he : (ps (((g t).source_tables.map Prod.snd).filter fun d => s d != 2)).isEmpty = true) :
    SInv g D root ⟨upd s t 2, rest, r ++ [t]⟩ := by
  have hdone : ∀ y ∈ (g t).source_tables.map Prod.snd, s y = 2 := deps_all_done hps he
  refine ⟨?_, ?_, ?_, ?_, ?_⟩
  · intro x hx
    exact hinv.todo_sub x (by simp [hx])
  · intro d
    simp only [upd]
    by_cases hd : d = t
    · simp [hd]
    · rw [if_neg hd]; exact hinv.state_le d
  · intro d
    simp only [upd]
    by_cases hd : d = t
    · subst hd; simp
    · rw [if_neg hd]
      rw [hinv.done_mem d]
      constructor
      · exact fun h => List.mem_append_left _ h
      · intro h
        rcases List.mem_append.1 h with h1 | h1
        · exact h1
        · simp at h1; exact absurd h1 hd
  · intro pre x post hsplit y hy
    rcases concat_split r pre post t x hsplit with ⟨post2, hp⟩ | ⟨hpre, hx, hpost⟩
    · exact hinv.topo pre x post2 hp y hy
    · subst hpre; subst hx
      exact (hinv.done_mem y).1 (hdone y hy)
  · rcases hinv.root_ok with hr | hr
    · rcases List.mem_cons.1 hr with rfl | hr2
      · right; simp [upd]
      · left; exact hr2
    · right
      simp only [upd]
      by_cases h : root = t
      · simp [h]
      · rw [if_neg h]; exact hr

/-- The push branch (marking fresh dependencies Pending) preserves the
invariant. -/
lemma SInv_push {g : Graph} {D : List Nat} {root : Nat} {ps : List Nat → List Nat}
    (hD : ClosedDom g D) (hps : PySetOK ps)
    {s s1 : Nat → Nat} {t : Nat} {rest r : List Nat}
    (hinv : SInv g D root ⟨s, t :: rest, r⟩)
    (hm : markPending s
        (ps (((g t).source_tables.map Prod.snd).filter fun d => s d != 2)) = some s1) :
    SInv g D root
      ⟨s1, (ps (((g t).source_tables.map Prod.snd).filter fun d => s d != 2)).reverse
            ++ t :: rest, r⟩ := by
  have hspec := markPending_some_spec hm
  refine ⟨?_, ?_, ?_, ?_, ?_⟩
  · intro x hx
    rcases List.mem_append.1 hx with h1 | h1
    · rw [List.mem_reverse] at h1
      exact hD t (hinv.todo_sub t (by simp)) x (mem_deps_not_done hps h1).1
    · exact hinv.todo_sub x h1
  · intro d
    show s1 d ≤ 2
    rw [hspec d]
    by_cases hd : d ∈ ps (((g t).source_tables.map Prod.snd).filter fun d => s d != 2)
    · rw [if_pos hd]; omega
    · rw [if_neg hd]; exact hinv.state_le d
  · intro d
    show s1 d = 2 ↔ d ∈ r
    rw [hspec d]
    by_cases hd : d ∈ ps (((g t).source_tables.map Prod.snd).filter fun d => s d != 2)
    · rw [if_pos hd]
      constructor
      · intro h; exact absurd h (by omega)
      · intro h
        exact absurd ((hinv.done_mem d).2 h) (mem_deps_not_done hps hd).2
    · rw [if_neg hd]; exact hinv.done_mem d
  · exact hinv.topo
  · rcases hinv.root_ok with hr | hr
    · left; exact List.mem_append_right _ hr
    · right
      show s1 root = 2
      rw [hspec root, if_neg (fun hc => (mem_deps_not_done hps hc).2 hr)]
      exact hr

/-- The loop only ever returns a result, runs out of fuel, or asserts. -/
lemma sortLoop_result_cases (g : Graph) (ps : List Nat → List Nat) :
    ∀ (fuel : Nat) (st : SortSt),
      (∃ res, sortLoop g ps fuel st = .ok res) ∨
      sortLoop g ps fuel st = .error .recursionLimit ∨
      sortLoop g ps fuel st = .error .assertCycle := by
  intro fuel
  induction fuel with
  | zero => intro st; exact Or.inr (Or.inl rfl)
  | succ n ih =>
    rintro ⟨s, todo, r⟩
    cases todo with
    | nil => exact Or.inl ⟨r, sortLoop_succ_nil g ps n s r⟩
    | cons t rest =>
      rw [sortLoop_succ_cons]
      by_cases he :
          (ps (((g t).source_tables.map Prod.snd).filter fun d => s d != 2)).isEmpty = true
      · rw [if_pos he]; exact ih _
      · rw [if_neg he]
        rcases hm : markPending s
            (ps (((g t).source_tables.map Prod.snd).filter fun d => s d != 2)) with _ | s1
        · exact Or.inr (Or.inr rfl)
        · exact ih _
/-- The termination measure of the sorter loop: twice the remaining marking
budget over the domain, plus the stack length.  Every iteration strictly
decreases it. -/
def phi (D : List Nat) (st : SortSt) : Nat :=
  2 * (D.map fun d => 2 - st.state d).sum + st.todo.length

/-- Marking a node Done never increases the marking budget. -/
lemma sum_upd_le (s : Nat → Nat) (t : Nat) (D : List Nat) :
    (D.map fun d => 2 - upd s t 2 d).sum ≤ (D.map fun d => 2 - s d).sum :=
  List.sum_le_sum fun i _ => by
    simp only [upd]
    by_cases h : i = t
    · simp [h]
    · rw [if_neg h]

/-- Marking one unvisited domain node Pending decreases the budget by one. -/
lemma sum_upd_one (s : Nat → Nat) (d : Nat) (D : List Nat) (hD : D.Nodup) (hmem : d ∈ D)
    (hzero : s d = 0) :
    (D.map fun x => 2 - upd s d 1 x).sum + 1 = (D.map fun x => 2 - s x).sum := by
  induction D with
  | nil => simp at hmem
  | cons a rest ih =>
    rw [List.nodup_cons] at hD
    rw [List.map_cons, List.map_cons, List.sum_cons, List.sum_cons]
    rcases List.mem_cons.1 hmem with heq | hmem2
    · subst heq
      have hhead : 2 - upd s d 1 d = 1 := by simp [upd]
      have htail : rest.map (fun x => 2 - upd s d 1 x) = rest.map fun x => 2 - s x := by
        apply List.map_congr_left
        intro x hx
        simp only [upd]
        rw [if_neg (show x ≠ d from fun hc => hD.1 (hc ▸ hx))]
      rw [htail, hhead, hzero]
      omega
    · have had : a ≠ d := fun hc => hD.1 (hc ▸ hmem2)
      have hhead : 2 - upd s d 1 a = 2 - s a := by
        simp only [upd]
        rw [if_neg had]
      rw [hhead]
      have hih := ih hD.2 hmem2
      omega

/-- A successful `markPending` over `k` fresh domain nodes decreases the
budget by exactly `k`. -/
lemma markPending_sum (D : List Nat) (hD : D.Nodup) :
    ∀ (ds : List Nat) (s s1 : Nat → Nat), ds.Nodup → (∀ d ∈ ds, d ∈ D) →
      (∀ d ∈ ds, s d = 0) → markPending s ds = some s1 →
      (D.map fun x => 2 - s1 x).sum + ds.length = (D.map fun x => 2 - s x).sum := by
  intro ds
  induction ds with
  | nil =>
    intro s s1 _ _ _ h
    injection h with h
    subst h
    simp
  | cons d rest ih =>
    intro s s1 hnd hsub hzero h
    rw [markPending, if_neg (by rw [hzero d (by simp)]; omega)] at h
    rw [List.nodup_cons] at hnd
    have hrest0 : ∀ x ∈ rest, upd s d 1 x = 0 := fun x hx => by
      simp only [upd]
      rw [if_neg (show x ≠ d from fun hc => hnd.1 (hc ▸ hx))]
      exact hzero x (by simp [hx])
    have h2 := ih (upd s d 1) s1 hnd.2 (fun x hx => hsub x (by simp [hx])) hrest0 h
    have h1 := sum_upd_one s d D hD (hsub d (by simp)) (hzero d (by simp))
    simp only [List.length_cons]
    omega

/-- With fuel exceeding the measure, the loop never runs out of fuel. -/
lemma sortLoop_no_fuel_out {g : Graph} {D : List Nat} {root : Nat}
    {ps : List Nat → List Nat}
    (hD : ClosedDom g D) (hps : PySetOK ps) (hnd : D.Nodup) :
    ∀ (fuel : Nat) (st : SortSt), SInv g D root st → phi D st < fuel →
      sortLoop g ps fuel st ≠ .error .recursionLimit := by
  intro fuel
  induction fuel with
  | zero => intro st _ h; omega
  | succ n ih =>
    rintro ⟨s, todo, r⟩ hinv hphi
    cases todo with
    | nil => rw [sortLoop_succ_nil]; simp
    | cons t rest =>
      rw [sortLoop_succ_cons]
      by_cases he :
          (ps (((g t).source_tables.map Prod.snd).filter fun d => s d != 2)).isEmpty = true
      · rw [if_pos he]
        apply ih _ (SInv_append hps hinv he)
        have hle := sum_upd_le s t D
        simp only [phi, List.length_cons] at hphi ⊢
        omega
      · rw [if_neg he]
        rcases hm : markPending s
            (ps (((g t).source_tables.map Prod.snd).filter fun d => s d != 2)) with _ | s1
        · simp
        · apply ih _ (SInv_push hD hps hinv hm)
          have hdnd : (ps (((g t).source_tables.map Prod.snd).filter
              fun d => s d != 2)).Nodup := (hps _).1
          have hdsub : ∀ d ∈ ps (((g t).source_tables.map Prod.snd).filter
              fun d => s d != 2), d ∈ D := fun d hd =>
            hD t (hinv.todo_sub t (by simp)) d (mem_deps_not_done hps hd).1
          have hzero : ∀ d ∈ ps (((g t).source_tables.map Prod.snd).filter
              fun d => s d != 2), s d = 0 := by
            intro d hd
            have h2 := (mem_deps_not_done hps hd).2
            have h1 := markPending_some_prev hm hdnd d hd
            have hle : s d ≤ 2 := hinv.state_le d
            omega
          have hsum := markPending_sum D hnd _ s s1 hdnd hdsub hzero hm
          have hne : ps (((g t).source_tables.map Prod.snd).filter
              fun d => s d != 2) ≠ [] := fun hc => by rw [hc] at he; simp at he
          have hpos : 0 < (ps (((g t).source_tables.map Prod.snd).filter
              fun d => s d != 2)).length := List.length_pos.2 hne
          simp only [phi, List.length_append, List.length_reverse, List.length_cons]
            at hphi ⊢
          omega

/-- What a normal return implies: the root was emitted, and every emitted
node's dependencies precede it in the output. -/
lemma sortLoop_ok_spec {g : Graph} {D : List Nat} {root : Nat}
    {ps : List Nat → List Nat} (hD : ClosedDom g D) (hps : PySetOK ps) :
    ∀ (fuel : Nat) (st : SortSt) (res : List Nat), SInv g D root st →
      sortLoop g ps fuel st = .ok res →
      root ∈ res ∧
      ∀ pre x post, res = pre ++ x :: post →
        ∀ y ∈ (g x).source_tables.map Prod.snd, y ∈ pre := by
  intro fuel
  induction fuel with
  | zero => intro st res _ h; exact absurd h (by rw [sortLoop]; simp)
  | succ n ih =>
    rintro ⟨s, todo, r⟩ res hinv h
    cases todo with
    | nil =>
      rw [sortLoop_succ_nil] at h
      injection h with h
      subst h
      have hroot2 : s root = 2 := by
        rcases hinv.root_ok with h1 | h1
        · exact absurd h1 (by simp)
        · exact h1
      exact ⟨(hinv.done_mem root).1 hroot2, hinv.topo⟩
    | cons t rest =>
      rw [sortLoop_succ_cons] at h
      by_cases he :
          (ps (((g t).source_tables.map Prod.snd).filter fun d => s d != 2)).isEmpty = true
      · rw [if_pos he] at h
        exact ih _ res (SInv_append hps hinv he) h
      · rw [if_neg he] at h
        rcases hm : markPending s
            (ps (((g t).source_tables.map Prod.snd).filter fun d => s d != 2)) with _ | s1 <;>
          rw [hm] at h
        · exact absurd h (by simp)
        · exact ih _ res (SInv_push hD hps hinv hm) h

/-- Index of the first occurrence of a node in the output list. -/
def firstIdx : List Nat → Nat → Nat
  | [], _ => 0
  | a :: l, x => if a = x then 0 else firstIdx l x + 1

/-- Every member yields a first-occurrence split. -/
lemma exists_first_split {x : Nat} :
    ∀ {l : List Nat}, x ∈ l → ∃ pre post, l = pre ++ x :: post ∧ x ∉ pre := by
  intro l
  induction l with
  | nil => intro h; simp at h
  | cons a rest ih =>
    intro h
    by_cases hax : a = x
    · subst hax
      exact ⟨[], rest, rfl, by simp⟩
    · rcases List.mem_cons.1 h with rfl | h2
      · exact absurd rfl hax
      · obtain ⟨pre, post, hsplit, hnot⟩ := ih h2
        refine ⟨a :: pre, post, by rw [List.cons_append, hsplit], ?_⟩
        intro hc
        rcases List.mem_cons.1 hc with rfl | hc2
        · exact hax rfl
        · exact hnot hc2

/-- The first occurrence of `x` after a prefix avoiding `x` sits exactly at
the prefix length. -/
lemma firstIdx_append_cons {x : Nat} :
    ∀ {pre : List Nat}, x ∉ pre → ∀ post, firstIdx (pre ++ x :: post) x = pre.length := by
  intro pre
  induction pre with
  | nil => intro _ post; simp [firstIdx]
  | cons a rest ih =>
    intro hnot post
    rw [List.cons_append, firstIdx, if_neg (fun hc => hnot (by simp [hc]))]
    rw [ih (fun hc => hnot (by simp [hc])) post, List.length_cons]

/-- A member of the prefix has first index below the prefix length. -/
lemma firstIdx_lt_of_mem_front {y : Nat} :
    ∀ {pre : List Nat}, y ∈ pre → ∀ rest, firstIdx (pre ++ rest) y < pre.length := by
  intro pre
  induction pre with
  | nil => intro h; simp at h
  | cons a p ih =>
    intro h rest
    rw [List.cons_append, firstIdx]
    by_cases hay : a = y
    · rw [if_pos hay]; simp
    · rw [if_neg hay, List.length_cons]
      have h2 : y ∈ p := by
        rcases List.mem_cons.1 h with rfl | h2
        · exact absurd rfl hay
        · exact h2
      have hlt := ih h2 rest
      omega

/-- In a dependency-closed topologically ordered output, following an edge
strictly decreases the first-occurrence index. -/
lemma topo_dep_lt {g : Graph} {res : List Nat}
    (htopo : ∀ pre x post, res = pre ++ x :: post →
      ∀ y ∈ (g x).source_tables.map Prod.snd, y ∈ pre)
    {x y : Nat} (hx : x ∈ res) (hy : gEdge g x y) :
    y ∈ res ∧ firstIdx res y < firstIdx res x := by
  obtain ⟨pre, post, hsplit, hnot⟩ := exists_first_split hx
  have hypre : y ∈ pre := htopo pre x post hsplit y hy
  constructor
  · rw [hsplit]
    exact List.mem_append_left _ hypre
  · rw [hsplit, firstIdx_append_cons hnot post]
    exact firstIdx_lt_of_mem_front hypre (x :: post)

/-- Transitive edges strictly decrease the first-occurrence index. -/
lemma transGen_firstIdx {g : Graph} {res : List Nat}
    (htopo : ∀ pre x post, res = pre ++ x :: post →
      ∀ y ∈ (g x).source_tables.map Prod.snd, y ∈ pre) :
    ∀ {a b : Nat}, Relation.TransGen (gEdge g) a b → a ∈ res →
      b ∈ res ∧ firstIdx res b < firstIdx res a := by
  intro a b h
  induction h with
  | single h1 => intro ha; exact topo_dep_lt htopo ha h1
  | tail _ h2 ih =>
    intro ha
    obtain ⟨hb, hlt⟩ := ih ha
    obtain ⟨hc, hlt2⟩ := topo_dep_lt htopo hb h2
    exact ⟨hc, lt_trans hlt2 hlt⟩

/-- A topologically ordered output is dependency-closed. -/
lemma topo_closed {g : Graph} {res : List Nat}
    (htopo : ∀ pre x post, res = pre ++ x :: post →
      ∀ y ∈ (g x).source_tables.map Prod.snd, y ∈ pre) :
    ∀ x ∈ res, ∀ y ∈ (g x).source_tables.map Prod.snd, y ∈ res := by
  intro x hx y hy
  obtain ⟨pre, post, hsplit, -⟩ := exists_first_split hx
  rw [hsplit]
  exact List.mem_append_left _ (htopo pre x post hsplit y hy)

/-- Everything reachable from an emitted root is emitted. -/
lemma reach_mem_res {g : Graph} {root : Nat} {res : List Nat} (hroot : root ∈ res)
    (hclosed : ∀ x ∈ res, ∀ y ∈ (g x).source_tables.map Prod.snd, y ∈ res) :
    ∀ x, Reach g root x → x ∈ res := by
  intro x h
  induction h with
  | refl => exact hroot
  | tail _ h2 ih => exact hclosed _ ih _ h2

/-- Twice the length, as the initial marking budget. -/
lemma sum_map_const_two : ∀ E : List Nat, (E.map fun _ => (2 : Nat)).sum = 2 * E.length := by
  intro E
  induction E with
  | nil => rfl
  | cons a rest ih =>
    rw [List.map_cons, List.sum_cons, ih, List.length_cons]
    omega
/-! Claim C2: cycles make the sorter assert -/

/-- C2: Whenever some node reachable from `root` lies on a dependency cycle,
`sort_dependencies(root)` raises the `AssertionError("Circular Table
dependency")` — under every lawful set-iteration behaviour — and never
returns a sequence; the error is the function's outcome, propagating to the
caller with no recovery.  `D` is any dependency-closed finite list of node
ids containing `root` (a Python heap is finite, so one always exists), and
the fuel bound `4·|D| + 2` dominates the loop's strictly decreasing
measure, so the loop cannot diverge either. -/
theorem sort_reachable_cycle_asserts (g : Graph) (D : List Nat)
    (ps : List Nat → List Nat) (fuel root c : Nat)
    (hD : ClosedDom g D) (hroot : root ∈ D) (hnd : D.Nodup) (hps : PySetOK ps)
    (hreach : Reach g root c) (hcyc : Relation.TransGen (gEdge g) c c)
    (hfuel : 4 * D.length + 2 ≤ fuel) :
    sortDependencies g ps fuel root = .error .assertCycle := by
  rw [sortDependencies]
  rcases sortLoop_result_cases g ps fuel ⟨fun _ => 0, [root], []⟩ with ⟨res, hok⟩ | hrl | hac
  · exfalso
    obtain ⟨hrootres, htopo⟩ := sortLoop_ok_spec hD hps fuel _ res (SInv_init hroot) hok
    have hc := reach_mem_res hrootres (topo_closed htopo) c hreach
    exact absurd (transGen_firstIdx htopo hcyc hc).2 (lt_irrefl _)
  · exfalso
    refine sortLoop_no_fuel_out hD hps hnd fuel _ (SInv_init hroot) ?_ hrl
    have hsum : (D.map fun d => 2 - (0 : Nat)).sum = 2 * D.length := sum_map_const_two D
    simp only [phi, List.length_cons, List.length_nil]
    simp only [Nat.sub_zero] at hsum
    rw [show (D.map fun d => 2 - (fun _ => (0 : Nat)) d) = D.map fun _ => (2 : Nat) from rfl]
    omega
  · exact hac
/-- C2 witness: the two-node cycle 0 → 1 → 0 with the ascending set order;
the hypotheses are satisfied and the sorter asserts. -/
theorem sort_reachable_cycle_asserts_witness :
    Reach gCyc 0 0 ∧ Relation.TransGen (gEdge gCyc) 0 0 ∧
    sortDependencies gCyc ascSet 10 0 = .error .assertCycle := by
  have h01 : gEdge gCyc 0 1 := by simp [gEdge, gCyc]
  have h10 : gEdge gCyc 1 0 := by simp [gEdge, gCyc]
  have hcyc : Relation.TransGen (gEdge gCyc) 0 0 :=
    Relation.TransGen.tail (Relation.TransGen.single h01) h10
  refine ⟨Relation.ReflTransGen.refl, hcyc, ?_⟩
  exact sort_reachable_cycle_asserts gCyc [0, 1] ascSet 10 0 0
    (by unfold ClosedDom; decide) (by simp) (by simp)
    pySetOK_ascSet Relation.ReflTransGen.refl hcyc (by simp)

end Pgsqm
